import Mathlib

/-!
Verification of the Tensor-Chess rules engine
(src/10_finalproject 2/tensor_chess_fixed-4.py).

The Python program keeps an 8x8 grid of integer piece codes
(0 = empty, 1..6 = white P R N B Q K, 7..12 = black P R N B Q K),
six global castling-rights booleans, an optional en-passant target
square, and a main loop `play_game` that validates and applies one
move per iteration.

The shallow embedding below mirrors the source: the board is a total
function from (row, column) integer pairs to piece codes (the tensor
is only ever read at bounds-checked coordinates, which is itself one
of the verified claims), the global mutable state becomes an explicit
`GameState` record threaded through the functions, and the body of the
`while` loop of `play_game` becomes `applyTurn`, returning the new
state together with a status mirroring the `continue` / accepted /
returned-after-win paths of the loop.
-/

/-- Piece codes as in the Python `piece2idx` table: 0 empty,
1..6 white pawn/rook/knight/bishop/queen/king, 7..12 the same for black. -/
abbrev Board := Int → Int → Nat

/-- Terminal signal of one game: still running, or won by a side
(`won true` means White just won). -/
inductive GameResult where
  | inProgress
  | won (white : Bool)
deriving DecidableEq

/-- Outcome of one iteration of the `play_game` loop body.  The three
`rejected*` constructors are the three `continue` paths (empty or
wrong-side origin square, empty move list, destination index not among
the generated moves); `finishedAlready` models that the loop has
returned after a win and accepts no further proposals. -/
inductive Status where
  | rejectedSelection
  | rejectedNoMoves
  | rejectedDestination
  | finishedAlready
  | moveApplied
deriving DecidableEq

/-- The mutable program state of `play_game`: the board tensor, whose
turn it is, the module-level en-passant target and the six
castling-rights globals, plus the result signal (the source expresses
the terminal state by returning from the loop). -/
structure GameState where
  board : Board
  white_to_move : Bool
  en_passant_target : Option (Int × Int)
  white_king_moved : Bool
  black_king_moved : Bool
  white_rook_moved_k : Bool
  white_rook_moved_q : Bool
  black_rook_moved_k : Bool
  black_rook_moved_q : Bool
  result : GameResult

/-- `get_piece(board, r, c)` of the source: read one cell. -/
def get_piece (b : Board) (r c : Int) : Nat := b r c

/-- `set_piece(board, r, c, code)` of the source: functional update of
one cell. -/
def set_piece (b : Board) (r c : Int) (code : Nat) : Board :=
  fun r2 c2 => if r2 == r && c2 == c then code else b r2 c2

/-- `in_bounds(r, c)` of the source. -/
def in_bounds (r c : Int) : Bool :=
  decide (0 ≤ r) && decide (r < 8) && decide (0 ≤ c) && decide (c < 8)

/-- `king_exists(board, white)` of the source: scan all 64 squares for
the king code of the given side. -/
def king_exists (b : Board) (white : Bool) : Bool :=
  let target := if white then 6 else 12
  (List.range 8).any fun r => (List.range 8).any fun c =>
    b (r : Int) (c : Int) == target

/-- The `is_enemy(r, c)` helper nested in `get_possible_moves`:
non-empty and of the side opposite to `white`. -/
def is_enemy (b : Board) (white : Bool) (r c : Int) : Bool :=
  let t := b r c
  t != 0 && (decide (t ≤ 6) != white)

/-- One sliding ray of `get_possible_moves` (the `while in_bounds`
loops of the rook, bishop and queen branches): walk outward, append
empty squares and continue, append the first occupied square only if
it belongs to the enemy, then stop.  The source loop terminates
because every step stays on the 8x8 grid; the embedding makes that
explicit with a fuel argument, called with fuel 16, which is more than
any in-bounds ray can use. -/
def rayMoves (b : Board) (white : Bool) (dr dc : Int) :
    Nat → Int → Int → List (Int × Int)
  | 0, _, _ => []
  | fuel + 1, r, c =>
    if in_bounds r c then
      if b r c == 0 then
        (r, c) :: rayMoves b white dr dc fuel (r + dr) (c + dc)
      else if decide (b r c ≤ 6) != white then [(r, c)] else []
    else []

/-- The rook's four ray directions, in source order. -/
def rookDirs : List (Int × Int) := [(-1, 0), (1, 0), (0, -1), (0, 1)]

/-- The bishop's four ray directions, in source order. -/
def bishopDirs : List (Int × Int) := [(-1, -1), (-1, 1), (1, -1), (1, 1)]

/-- The queen's eight ray directions, in source order. -/
def queenDirs : List (Int × Int) :=
  [(-1, 0), (1, 0), (0, -1), (0, 1), (-1, -1), (-1, 1), (1, -1), (1, 1)]

/-- All rays of a sliding piece: the source repeats the same
`while` loop for each direction of the piece's direction list. -/
def slideMoves (b : Board) (white : Bool) (row col : Int)
    (dirs : List (Int × Int)) : List (Int × Int) :=
  dirs.flatMap fun d => rayMoves b white d.1 d.2 16 (row + d.1) (col + d.2)

/-- One fixed-offset candidate (king and knight branches): the target
square, if in bounds and empty or enemy-occupied. -/
def offsetCand (b : Board) (white : Bool) (row col : Int)
    (d : Int × Int) : List (Int × Int) :=
  if in_bounds (row + d.1) (col + d.2) then
    if b (row + d.1) (col + d.2) == 0
        || (decide (b (row + d.1) (col + d.2) ≤ 6) != white) then
      [(row + d.1, col + d.2)]
    else []
  else []

/-- The king's eight adjacent offsets in the order of the source's
nested `for dr / for dc` loops (skipping (0,0)). -/
def kingAdjDirs : List (Int × Int) :=
  [(-1, -1), (-1, 0), (-1, 1), (0, -1), (0, 1), (1, -1), (1, 0), (1, 1)]

/-- Adjacent-square king moves. -/
def kingAdj (b : Board) (white : Bool) (row col : Int) : List (Int × Int) :=
  kingAdjDirs.flatMap (offsetCand b white row col)

/-- The castling candidates appended at the end of the king branch of
`get_possible_moves` (lines 159-168 of the source): gated only on the
side's king-moved flag, the corresponding rook-moved flag, the rook
code at the corner of the king's current row `sr`, and emptiness of
the squares between the columns of king start and rook corner.  The
source does not check the king's own position here. -/
def castleMoves (s : GameState) (white : Bool) (sr : Int) : List (Int × Int) :=
  let b := s.board
  if white && !s.white_king_moved then
    (if !s.white_rook_moved_k && b sr 7 == 2 && b sr 5 == 0 && b sr 6 == 0 then
      [(sr, 6)] else []) ++
    (if !s.white_rook_moved_q && b sr 0 == 2 && b sr 1 == 0 && b sr 2 == 0
        && b sr 3 == 0 then [(sr, 2)] else [])
  else if !white && !s.black_king_moved then
    (if !s.black_rook_moved_k && b sr 7 == 8 && b sr 5 == 0 && b sr 6 == 0 then
      [(sr, 6)] else []) ++
    (if !s.black_rook_moved_q && b sr 0 == 8 && b sr 1 == 0 && b sr 2 == 0
        && b sr 3 == 0 then [(sr, 2)] else [])
  else []

/-- The knight's eight offsets, in source order. -/
def knightDirs : List (Int × Int) :=
  [(-2, -1), (-2, 1), (-1, -2), (-1, 2), (1, -2), (1, 2), (2, -1), (2, 1)]

/-- Knight moves. -/
def knightMoves (b : Board) (white : Bool) (row col : Int) : List (Int × Int) :=
  knightDirs.flatMap (offsetCand b white row col)

/-- The pawn branch of `get_possible_moves`: one forward onto empty
(with the two-square advance nested inside, available from the start
row when the further square is also empty), the two diagonal captures
onto enemy squares, and the en-passant candidate when the target is
set, the pawn is on the en-passant-eligible row and the target is one
forward row and one column aside — generated without re-checking that
the target square is empty, exactly as in the source. -/
def pawnMoves (s : GameState) (white : Bool) (row col : Int) :
    List (Int × Int) :=
  let b := s.board
  let d : Int := if white then -1 else 1
  let start_row : Int := if white then 6 else 1
  let forward :=
    if in_bounds (row + d) col && b (row + d) col == 0 then
      (row + d, col) ::
        (if row == start_row && b (row + 2 * d) col == 0 then
          [(row + 2 * d, col)] else [])
    else []
  let caps :=
    ([-1, 1] : List Int).flatMap fun dc =>
      if in_bounds (row + d) (col + dc) && is_enemy b white (row + d) (col + dc)
      then [(row + d, col + dc)] else []
  let ep :=
    match s.en_passant_target with
    | none => []
    | some (er, ec) =>
      if row == (if white then (3 : Int) else 4) && (ec - col).natAbs == 1
          && er == row + d then [(er, ec)] else []
  forward ++ caps ++ ep

/-- `get_possible_moves(board, row, col)` of the source, dispatching on
the piece code at the origin; the global en-passant target and
castling flags it reads are fields of `s`. -/
def get_possible_moves (s : GameState) (row col : Int) : List (Int × Int) :=
  let code := s.board row col
  if code == 0 then []
  else
    let white := decide (code ≤ 6)
    let ptype := if white then code else code - 6
    if ptype == 1 then pawnMoves s white row col
    else if ptype == 2 then slideMoves s.board white row col rookDirs
    else if ptype == 4 then slideMoves s.board white row col bishopDirs
    else if ptype == 5 then slideMoves s.board white row col queenDirs
    else if ptype == 6 then kingAdj s.board white row col ++ castleMoves s white row
    else if ptype == 3 then knightMoves s.board white row col
    else []

/-- `is_castling_move(board, sr, sc, er, ec, white_to_move)` of the
source: origin must be the side's home-rank king start square, the
destination two columns aside on the same rank, the king-moved and
corresponding rook-moved flags unset, the intervening squares empty
and the rook code present at the corner. -/
def is_castling_move (s : GameState) (sr sc er ec : Int)
    (white_to_move : Bool) : Bool :=
  let b := s.board
  if sr != (if white_to_move then (7 : Int) else 0) || sc != 4 then false
  else if er != sr || (ec - sc).natAbs != 2 then false
  else if white_to_move then
    if s.white_king_moved then false
    else if ec == 6 then
      if s.white_rook_moved_k || b sr 5 != 0 || b sr 6 != 0 then false
      else b sr 7 == 2
    else if ec == 2 then
      if s.white_rook_moved_q || b sr 1 != 0 || b sr 2 != 0 || b sr 3 != 0 then
        false
      else b sr 0 == 2
    else false
  else
    if s.black_king_moved then false
    else if ec == 6 then
      if s.black_rook_moved_k || b sr 5 != 0 || b sr 6 != 0 then false
      else b sr 7 == 8
    else if ec == 2 then
      if s.black_rook_moved_q || b sr 1 != 0 || b sr 2 != 0 || b sr 3 != 0 then
        false
      else b sr 0 == 8
    else false

/-- `handle_castling(board, sr, sc, er, ec)` of the source: move the
king code from the origin to the destination, move the corner rook to
column 5 (kingside, `ec > sc`) or column 3 (queenside), clear the two
vacated squares, and set the side's king-moved flag together with the
moved rook's flag.  The side is read from the origin square before any
mutation, as in the source. -/
def handle_castling (s : GameState) (sr sc er ec : Int) : GameState :=
  let white := decide (s.board sr sc ≤ 6)
  let b1 := set_piece s.board er ec (s.board sr sc)
  let b2 := set_piece b1 sr sc 0
  let s2 :=
    if ec > sc then
      let rook := b2 sr 7
      let b3 := set_piece b2 sr 5 rook
      let b4 := set_piece b3 sr 7 0
      if white then { s with board := b4, white_rook_moved_k := true }
      else { s with board := b4, black_rook_moved_k := true }
    else
      let rook := b2 sr 0
      let b3 := set_piece b2 sr 3 rook
      let b4 := set_piece b3 sr 0 0
      if white then { s with board := b4, white_rook_moved_q := true }
      else { s with board := b4, black_rook_moved_q := true }
  if white then { s2 with white_king_moved := true }
  else { s2 with black_king_moved := true }

/-- `is_en_passant(board, sr, sc, er, ec, white_to_move)` of the
source: the origin holds the moving side's pawn and the destination
equals the current en-passant target. -/
def is_en_passant (s : GameState) (sr sc er ec : Int)
    (white_to_move : Bool) : Bool :=
  let piece := s.board sr sc
  if piece != (if white_to_move then 1 else 7) then false
  else s.en_passant_target == some (er, ec)

/-- `handle_en_passant(board, sr, sc, er, ec, white_to_move)` of the
source: put the capturing pawn on the destination, clear the origin,
then clear the square at the origin's row and the destination's
column (the captured pawn's square).  The trailing side argument is
unused, as in the source. -/
def handle_en_passant (b : Board) (sr sc er ec : Int)
    (white_to_move : Bool) : Board :=
  set_piece (set_piece (set_piece b er ec (b sr sc)) sr sc 0) sr ec 0

/-- `handle_promotion(board, r, c)` of the source: a white pawn (code
1) on row 0 becomes a white queen (code 5), a black pawn (code 7) on
row 7 becomes a black queen (code 11); anything else is untouched. -/
def handle_promotion (b : Board) (r c : Int) : Board :=
  let piece := b r c
  if piece == 1 && r == 0 then set_piece b r c 5
  else if piece == 7 && r == 7 then set_piece b r c 11
  else b

/-- The first rook-flag if-chain of the simple-move branch (source
lines 336-345): a rook moving off its home corner sets the
corresponding rook-moved flag. -/
def rookDepartFlags (s1 : GameState) (scode : Nat) (sr sc : Int) : GameState :=
  if scode == 2 then
    if sr == 7 && sc == 0 then { s1 with white_rook_moved_q := true }
    else if sr == 7 && sc == 7 then { s1 with white_rook_moved_k := true }
    else s1
  else if scode == 8 then
    if sr == 0 && sc == 0 then { s1 with black_rook_moved_q := true }
    else if sr == 0 && sc == 7 then { s1 with black_rook_moved_k := true }
    else s1
  else s1

/-- The second flag if-chain of the simple-move branch (source lines
347-358): a moving king sets the king-moved flag; the rook cases
duplicate `rookDepartFlags` and are unreachable after it, but the
source repeats them and so does the embedding. -/
def kingMovedFlags (s2 : GameState) (scode : Nat) (sr sc : Int) : GameState :=
  if scode == 6 then { s2 with white_king_moved := true }
  else if scode == 12 then { s2 with black_king_moved := true }
  else if scode == 2 && sr == 7 && sc == 0 then
    { s2 with white_rook_moved_q := true }
  else if scode == 2 && sr == 7 && sc == 7 then
    { s2 with white_rook_moved_k := true }
  else if scode == 8 && sr == 0 && sc == 0 then
    { s2 with black_rook_moved_q := true }
  else if scode == 8 && sr == 0 && sc == 7 then
    { s2 with black_rook_moved_k := true }
  else s2

/-- The move-application block of the `play_game` loop body (source
lines 326-358): castling if eligible, else en-passant if eligible,
else the simple relocation followed by the rook-departure and
king-move flag updates. -/
def applyMoveCore (s : GameState) (sr sc er ec : Int) : GameState :=
  let scode := s.board sr sc
  if is_castling_move s sr sc er ec s.white_to_move then
    handle_castling s sr sc er ec
  else if is_en_passant s sr sc er ec s.white_to_move then
    { s with board := handle_en_passant s.board sr sc er ec s.white_to_move }
  else
    let b2 := set_piece (set_piece s.board er ec scode) sr sc 0
    kingMovedFlags (rookDepartFlags { s with board := b2 } scode sr sc) scode sr sc

/-- The tail of an accepted turn (source lines 360-382): apply the
move block, then promotion at the destination, then recompute the
en-passant target (set exactly when a pawn moved two rows, to the row
midpoint — Python floor division — and the origin column), then the
win check: if the side not on move has no king left, the game ends
won by the mover, otherwise the turn flips. -/
def postTurn (s : GameState) (sr sc er ec : Int) : GameState :=
  let scode := s.board sr sc
  let s1 := applyMoveCore s sr sc er ec
  let s2 := { s1 with board := handle_promotion s1.board er ec }
  let ept : Option (Int × Int) :=
    if (scode = 1 ∨ scode = 7) ∧ (er - sr).natAbs = 2 then
      some ((sr + er).fdiv 2, sc)
    else none
  let s3 := { s2 with en_passant_target := ept }
  if !king_exists s3.board (!s.white_to_move) then
    { s3 with result := GameResult.won s.white_to_move }
  else
    { s3 with white_to_move := !s.white_to_move }

/-- One iteration of the `play_game` loop on a proposed
(origin, destination): reject without touching anything if the origin
is empty or not the mover's piece, if the piece has no moves, or if
the destination is not among the generated moves (the source lets the
player pick only an index into that list); otherwise run the accepted
turn.  A state whose game has already been won accepts nothing — the
source's loop has returned. -/
def applyTurn (s : GameState) (sr sc er ec : Int) : GameState × Status :=
  if s.result = GameResult.inProgress then
    let scode := s.board sr sc
    if scode = 0 ∨ decide (scode ≤ 6) ≠ s.white_to_move then
      (s, Status.rejectedSelection)
    else
      let moves := get_possible_moves s sr sc
      if moves = [] then (s, Status.rejectedNoMoves)
      else if (er, ec) ∈ moves then (postTurn s sr sc er ec, Status.moveApplied)
      else (s, Status.rejectedDestination)
  else (s, Status.finishedAlready)

/-- `create_initial_board_tf` of the source: standard starting setup,
black codes on rows 0 and 1, white codes on rows 6 and 7.  Cells off
the 8x8 tensor do not exist in the source; the embedding maps them
to 0. -/
def initialBoard : Board := fun r c =>
  if 0 ≤ c ∧ c < 8 then
    if r = 0 then ([2, 3, 4, 5, 6, 4, 3, 2].getD c.toNat 0) + 6
    else if r = 1 then 7
    else if r = 6 then 1
    else if r = 7 then [2, 3, 4, 5, 6, 4, 3, 2].getD c.toNat 0
    else 0
  else 0

/-- The state at the top of `play_game`: initial board, White to move,
no en-passant target, all rights flags false, game in progress. -/
def initialState : GameState :=
  { board := initialBoard
    white_to_move := true
    en_passant_target := none
    white_king_moved := false
    black_king_moved := false
    white_rook_moved_k := false
    white_rook_moved_q := false
    black_rook_moved_k := false
    black_rook_moved_q := false
    result := GameResult.inProgress }

/-- States reachable from the start of a game by accepted turns
(rejected proposals return the state unchanged, so they need no
constructor). -/
inductive Reachable : GameState → Prop where
  | init : Reachable initialState
  | step {s s' : GameState} {sr sc er ec : Int} :
      Reachable s → applyTurn s sr sc er ec = (s', Status.moveApplied) →
      Reachable s'

/-- Sanity check mirroring the spec's round-trip property: the White
pawn on e2 (square (6,4)) initially has exactly the moves e3 and e4. -/
theorem initial_e2_moves :
    get_possible_moves initialState 6 4 = [(5, 4), (4, 4)] := by decide

/-! ## Basic lemmas about the board primitives and the turn engine -/

lemma set_piece_same (b : Board) (r c : Int) (v : Nat) :
    set_piece b r c v r c = v := by
  simp [set_piece]

lemma set_piece_other (b : Board) (r c : Int) (v : Nat) (r2 c2 : Int)
    (h : r2 ≠ r ∨ c2 ≠ c) : set_piece b r c v r2 c2 = b r2 c2 := by
  have hc : (r2 == r && c2 == c) = false := by
    rcases h with h | h <;> simp [h]
  simp [set_piece, hc]

/-- The turn engine accepts a proposal exactly when the game is still
running, the origin holds a piece of the side to move, and the
destination is among the generated moves. -/
lemma applyTurn_accepted_iff (s : GameState) (sr sc er ec : Int) :
    (applyTurn s sr sc er ec).2 = Status.moveApplied ↔
      s.result = GameResult.inProgress ∧
      ¬(s.board sr sc = 0 ∨ decide (s.board sr sc ≤ 6) ≠ s.white_to_move) ∧
      (er, ec) ∈ get_possible_moves s sr sc := by
  simp only [applyTurn]
  split_ifs with h1 h2 h3 h4 <;> simp_all

/-- On an accepted proposal `applyTurn` returns exactly the `postTurn`
state. -/
lemma applyTurn_accepted (s : GameState) (sr sc er ec : Int)
    (h : (applyTurn s sr sc er ec).2 = Status.moveApplied) :
    applyTurn s sr sc er ec = (postTurn s sr sc er ec, Status.moveApplied) := by
  rcases (applyTurn_accepted_iff s sr sc er ec).1 h with ⟨h1, h2, h3⟩
  have hne : get_possible_moves s sr sc ≠ [] := List.ne_nil_of_mem h3
  simp [applyTurn, h1, h2, h3, hne]

/-- The board after an accepted turn: the move block followed by
promotion at the destination. -/
lemma postTurn_board (s : GameState) (sr sc er ec : Int) :
    (postTurn s sr sc er ec).board =
      handle_promotion (applyMoveCore s sr sc er ec).board er ec := by
  simp only [postTurn]
  split <;> rfl

/-- The en-passant target after an accepted turn. -/
lemma postTurn_ep (s : GameState) (sr sc er ec : Int) :
    (postTurn s sr sc er ec).en_passant_target =
      if (s.board sr sc = 1 ∨ s.board sr sc = 7) ∧ (er - sr).natAbs = 2 then
        some ((sr + er).fdiv 2, sc)
      else none := by
  simp only [postTurn]
  split <;> rfl

lemma handle_castling_result (s : GameState) (sr sc er ec : Int) :
    (handle_castling s sr sc er ec).result = s.result := by
  simp only [handle_castling]
  split_ifs <;> rfl

lemma rookDepartFlags_result (s1 : GameState) (scode : Nat) (sr sc : Int) :
    (rookDepartFlags s1 scode sr sc).result = s1.result := by
  simp only [rookDepartFlags]
  split_ifs <;> rfl

lemma rookDepartFlags_board (s1 : GameState) (scode : Nat) (sr sc : Int) :
    (rookDepartFlags s1 scode sr sc).board = s1.board := by
  simp only [rookDepartFlags]
  split_ifs <;> rfl

lemma rookDepartFlags_wtm (s1 : GameState) (scode : Nat) (sr sc : Int) :
    (rookDepartFlags s1 scode sr sc).white_to_move = s1.white_to_move := by
  simp only [rookDepartFlags]
  split_ifs <;> rfl

lemma kingMovedFlags_result (s2 : GameState) (scode : Nat) (sr sc : Int) :
    (kingMovedFlags s2 scode sr sc).result = s2.result := by
  simp only [kingMovedFlags]
  split_ifs <;> rfl

lemma kingMovedFlags_board (s2 : GameState) (scode : Nat) (sr sc : Int) :
    (kingMovedFlags s2 scode sr sc).board = s2.board := by
  simp only [kingMovedFlags]
  split_ifs <;> rfl

lemma kingMovedFlags_wtm (s2 : GameState) (scode : Nat) (sr sc : Int) :
    (kingMovedFlags s2 scode sr sc).white_to_move = s2.white_to_move := by
  simp only [kingMovedFlags]
  split_ifs <;> rfl

lemma applyMoveCore_result (s : GameState) (sr sc er ec : Int) :
    (applyMoveCore s sr sc er ec).result = s.result := by
  simp only [applyMoveCore]
  split_ifs <;>
    simp [handle_castling_result, kingMovedFlags_result, rookDepartFlags_result]

/-- The result after an accepted turn: won by the mover exactly when
the opposing king is gone from the post-promotion board. -/
lemma postTurn_result (s : GameState) (sr sc er ec : Int) :
    (postTurn s sr sc er ec).result =
      if king_exists (handle_promotion (applyMoveCore s sr sc er ec).board er ec)
          (!s.white_to_move) = false then
        GameResult.won s.white_to_move
      else s.result := by
  simp only [postTurn]
  split <;> rename_i hk <;> simp_all [applyMoveCore_result]

/-! ## C5 -/

/-- C5: applying the en-passant capture from origin (sr, sc) to
destination (er, ec) puts the capturing pawn's code on the
destination, clears the origin, and clears the square (sr, ec) at the
origin's rank and the destination's column — the advanced pawn is
removed from its actual square, not from the destination. -/
theorem C5_en_passant_application (b : Board) (sr sc er ec : Int) (w : Bool)
    (hne : er ≠ sr) :
    handle_en_passant b sr sc er ec w er ec = b sr sc ∧
    handle_en_passant b sr sc er ec w sr sc = 0 ∧
    handle_en_passant b sr sc er ec w sr ec = 0 := by
  refine ⟨?_, ?_, ?_⟩ <;> simp [handle_en_passant, set_piece, hne]

/-- Board for the C5 witness: a white pawn on (3,4), a black pawn on
(3,5) just after its double step. -/
def epWitnessBoard : Board := fun r c =>
  if r == 3 && c == 4 then 1 else if r == 3 && c == 5 then 7 else 0

/-- C5 witness: the capture (3,4) → (2,5) on `epWitnessBoard`. -/
theorem C5_witness :
    handle_en_passant epWitnessBoard 3 4 2 5 true 2 5 = epWitnessBoard 3 4 ∧
    handle_en_passant epWitnessBoard 3 4 2 5 true 3 4 = 0 ∧
    handle_en_passant epWitnessBoard 3 4 2 5 true 3 5 = 0 :=
  C5_en_passant_application epWitnessBoard 3 4 2 5 true (by decide)

/-! ## C4 -/

/-- C4: applying castling from the home-rank king start square
(row 7 column 4 for White, row 0 column 4 for Black) to a destination
two columns aside on the same rank places the king code on the
destination, the rook code on column 5 (kingside) or 3 (queenside) of
the same rank, clears both vacated squares, and sets the side's
king-moved flag and the moved rook's flag. -/
theorem C4_castling_application (s : GameState) (w : Bool) (ec : Int)
    (hec : ec = 2 ∨ ec = 6)
    (hk : s.board (if w then 7 else 0) 4 = (if w then 6 else 12))
    (hr : s.board (if w then 7 else 0) (if ec = 6 then 7 else 0)
            = (if w then 2 else 8)) :
    let sr : Int := if w then 7 else 0
    let s' := handle_castling s sr 4 sr ec
    s'.board sr ec = (if w then 6 else 12) ∧
    s'.board sr (if ec = 6 then 5 else 3) = (if w then 2 else 8) ∧
    s'.board sr 4 = 0 ∧
    s'.board sr (if ec = 6 then 7 else 0) = 0 ∧
    (if w then s'.white_king_moved else s'.black_king_moved) = true ∧
    (if w then (if ec = 6 then s'.white_rook_moved_k else s'.white_rook_moved_q)
     else (if ec = 6 then s'.black_rook_moved_k else s'.black_rook_moved_q))
      = true := by
  rcases hec with rfl | rfl <;> cases w <;>
    simp_all [handle_castling, set_piece]

/-- State for the C4 witness: only the white king on e1 and the white
kingside rook on h1. -/
def castleWitnessState : GameState :=
  { initialState with board := fun r c =>
      if r == 7 && c == 4 then 6 else if r == 7 && c == 7 then 2 else 0 }

/-- C4 witness: White castles kingside on `castleWitnessState`. -/
theorem C4_witness :
    (handle_castling castleWitnessState 7 4 7 6).board 7 6 = 6 ∧
    (handle_castling castleWitnessState 7 4 7 6).board 7 5 = 2 ∧
    (handle_castling castleWitnessState 7 4 7 6).board 7 4 = 0 ∧
    (handle_castling castleWitnessState 7 4 7 6).board 7 7 = 0 ∧
    (handle_castling castleWitnessState 7 4 7 6).white_king_moved = true ∧
    (handle_castling castleWitnessState 7 4 7 6).white_rook_moved_k = true :=
  C4_castling_application castleWitnessState true 6 (Or.inr rfl)
    (by decide) (by decide)

/-! ## C2 -/

/-- C2: a rejected turn proposal — origin empty or holding the side
not on move, no moves for the selected piece, or a destination outside
the generated candidates — leaves the board, all six castling-rights
flags and the en-passant target exactly equal to their pre-call
values. -/
theorem C2_rejection_no_mutation (s : GameState) (sr sc er ec : Int)
    (h : (applyTurn s sr sc er ec).2 = Status.rejectedSelection ∨
         (applyTurn s sr sc er ec).2 = Status.rejectedNoMoves ∨
         (applyTurn s sr sc er ec).2 = Status.rejectedDestination) :
    (applyTurn s sr sc er ec).1.board = s.board ∧
    (applyTurn s sr sc er ec).1.white_king_moved = s.white_king_moved ∧
    (applyTurn s sr sc er ec).1.black_king_moved = s.black_king_moved ∧
    (applyTurn s sr sc er ec).1.white_rook_moved_k = s.white_rook_moved_k ∧
    (applyTurn s sr sc er ec).1.white_rook_moved_q = s.white_rook_moved_q ∧
    (applyTurn s sr sc er ec).1.black_rook_moved_k = s.black_rook_moved_k ∧
    (applyTurn s sr sc er ec).1.black_rook_moved_q = s.black_rook_moved_q ∧
    (applyTurn s sr sc er ec).1.en_passant_target = s.en_passant_target := by
  have hfst : (applyTurn s sr sc er ec).1 = s := by
    simp only [applyTurn] at h ⊢
    split_ifs at h ⊢ <;> simp_all
  simp [hfst]

/-- C2 witness: proposing from the empty square (4,4) of the initial
position is rejected and changes nothing. -/
theorem C2_witness :
    (applyTurn initialState 4 4 0 0).1.board = initialState.board ∧
    (applyTurn initialState 4 4 0 0).1.white_king_moved
      = initialState.white_king_moved ∧
    (applyTurn initialState 4 4 0 0).1.black_king_moved
      = initialState.black_king_moved ∧
    (applyTurn initialState 4 4 0 0).1.white_rook_moved_k
      = initialState.white_rook_moved_k ∧
    (applyTurn initialState 4 4 0 0).1.white_rook_moved_q
      = initialState.white_rook_moved_q ∧
    (applyTurn initialState 4 4 0 0).1.black_rook_moved_k
      = initialState.black_rook_moved_k ∧
    (applyTurn initialState 4 4 0 0).1.black_rook_moved_q
      = initialState.black_rook_moved_q ∧
    (applyTurn initialState 4 4 0 0).1.en_passant_target
      = initialState.en_passant_target :=
  C2_rejection_no_mutation initialState 4 4 0 0 (Or.inl (by decide))

/-! ## C8 -/

/-- C8: `handle_promotion` replaces a white pawn on row 0 by a white
queen and a black pawn on row 7 by a black queen, leaves any other
square content unchanged; and on every accepted turn the final board
is the promotion of the post-move board at the destination square,
and the win check of that same turn reads this post-promotion
board. -/
theorem C8_promotion_before_win_check (s : GameState) (sr sc er ec : Int)
    (b : Board) (r c : Int) :
    ((b r c = 1 ∧ r = 0 → handle_promotion b r c = set_piece b r c 5) ∧
     (b r c = 7 ∧ r = 7 → handle_promotion b r c = set_piece b r c 11) ∧
     (¬(b r c = 1 ∧ r = 0) ∧ ¬(b r c = 7 ∧ r = 7) →
       handle_promotion b r c = b)) ∧
    ((applyTurn s sr sc er ec).2 = Status.moveApplied →
      (applyTurn s sr sc er ec).1.board =
        handle_promotion (applyMoveCore s sr sc er ec).board er ec ∧
      ((applyTurn s sr sc er ec).1.result = GameResult.won s.white_to_move ↔
        king_exists (handle_promotion (applyMoveCore s sr sc er ec).board er ec)
          (!s.white_to_move) = false)) := by
  constructor
  · refine ⟨?_, ?_, ?_⟩
    · rintro ⟨h1, h2⟩
      subst h2
      simp [handle_promotion, h1]
    · rintro ⟨h1, h2⟩
      subst h2
      simp [handle_promotion, h1]
    · rintro ⟨h1, h2⟩
      simp only [handle_promotion]
      split_ifs with a1 a2
      · exact absurd (by simpa using a1) h1
      · exact absurd (by simpa using a2) h2
      · rfl
  · intro h
    have heq := applyTurn_accepted s sr sc er ec h
    rcases (applyTurn_accepted_iff s sr sc er ec).1 h with ⟨h1, _, _⟩
    rw [heq]
    refine ⟨postTurn_board s sr sc er ec, ?_⟩
    simp only
    rw [postTurn_result]
    split_ifs with hk
    · simp [hk]
    · simp [h1, hk]

/-- Board for the C8 witness: a lone white pawn that has just reached
square (0,3). -/
def promoWitnessBoard : Board := fun r c =>
  if r == 0 && c == 3 then 1 else 0

/-- C8 witness: the pawn on (0,3) is replaced by a white queen. -/
theorem C8_witness :
    handle_promotion promoWitnessBoard 0 3 = set_piece promoWitnessBoard 0 3 5 :=
  (C8_promotion_before_win_check initialState 0 0 0 0
    promoWitnessBoard 0 3).1.1 ⟨by decide, rfl⟩

/-! ## C3 -/

/-- C3: when an accepted move leaves the side not on move without a
king anywhere on the board, the game transitions to a win for the side
that just moved, and every further proposal on the resulting state is
refused with the state unchanged. -/
theorem C3_win_detection_halts (s : GameState) (sr sc er ec : Int)
    (h : (applyTurn s sr sc er ec).2 = Status.moveApplied)
    (hk : king_exists (applyTurn s sr sc er ec).1.board (!s.white_to_move)
            = false) :
    (applyTurn s sr sc er ec).1.result = GameResult.won s.white_to_move ∧
    ∀ sr2 sc2 er2 ec2 : Int,
      applyTurn (applyTurn s sr sc er ec).1 sr2 sc2 er2 ec2 =
        ((applyTurn s sr sc er ec).1, Status.finishedAlready) := by
  have heq := applyTurn_accepted s sr sc er ec h
  rw [heq] at hk ⊢
  simp only at hk ⊢
  have hres : (postTurn s sr sc er ec).result = GameResult.won s.white_to_move := by
    rw [postTurn_result]
    rw [postTurn_board] at hk
    simp [hk]
  refine ⟨hres, ?_⟩
  intro sr2 sc2 er2 ec2
  simp [applyTurn, hres]

/-- State for the C3 witness: only the white king on e1; Black has no
king at all. -/
def loneKingState : GameState :=
  { initialState with board := fun r c => if r == 7 && c == 4 then 6 else 0 }

/-- C3 witness: after White's accepted king move e1-f1 on
`loneKingState`, the game is won by White and a further proposal is
refused. -/
theorem C3_witness :
    (applyTurn loneKingState 7 4 7 5).1.result = GameResult.won true ∧
    applyTurn (applyTurn loneKingState 7 4 7 5).1 0 0 0 0 =
      ((applyTurn loneKingState 7 4 7 5).1, Status.finishedAlready) := by
  have h := C3_win_detection_halts loneKingState 7 4 7 5 (by decide) (by decide)
  exact ⟨h.1, h.2 0 0 0 0⟩

/-! ## C1 -/

lemma offsetCand_shape (b : Board) (white : Bool) (row col : Int)
    (d : Int × Int) (m : Int × Int) (h : m ∈ offsetCand b white row col d) :
    m = (row + d.1, col + d.2) := by
  simp only [offsetCand] at h
  split_ifs at h <;> simp_all

/-- Any adjacent king candidate stays within one column of the
origin. -/
lemma kingAdj_col (b : Board) (white : Bool) (row col er ec : Int)
    (h : (er, ec) ∈ kingAdj b white row col) : (ec - col).natAbs ≤ 1 := by
  simp only [kingAdj, List.mem_flatMap] at h
  rcases h with ⟨d, hd, hm⟩
  have hs := offsetCand_shape b white row col d _ hm
  fin_cases hd <;> simp_all <;> omega

/-- C1 counterexample state: a white king on (5,4) and a white rook on
(5,7), all rights flags still false. -/
def c1State : GameState :=
  { initialState with board := fun r c =>
      if r == 5 && c == 4 then 6 else if r == 5 && c == 7 then 2 else 0 }

/-- C1 counterexample: with the white king away from its home square,
on (5,4), the King branch still offers the castling-shaped candidate
(5,6) (two columns right on the king's rank), but `is_castling_move`
rejects (5,4) → (5,6) because the origin is not the home-rank start
square; generation and eligibility therefore do not agree for every
board, rights state and side. -/
theorem C1_counterexample :
    ((5, 6) ∈ get_possible_moves c1State 5 4) ∧
    is_castling_move c1State 5 4 5 6 true = false := by decide

/-- The king branch of move generation, for a white king. -/
lemma get_possible_moves_king_white (s : GameState) (row col : Int)
    (hcode : s.board row col = 6) :
    get_possible_moves s row col =
      kingAdj s.board true row col ++ castleMoves s true row := by
  simp [get_possible_moves, hcode]

/-- The king branch of move generation, for a black king. -/
lemma get_possible_moves_king_black (s : GameState) (row col : Int)
    (hcode : s.board row col = 12) :
    get_possible_moves s row col =
      kingAdj s.board false row col ++ castleMoves s false row := by
  simp [get_possible_moves, hcode]

lemma castleMoves_mem_wk (s : GameState) (sr : Int) :
    ((sr, (6 : Int)) ∈ castleMoves s true sr) ↔
      (s.white_king_moved = false ∧ s.white_rook_moved_k = false ∧
       s.board sr 7 = 2 ∧ s.board sr 5 = 0 ∧ s.board sr 6 = 0) := by
  simp only [castleMoves]
  split_ifs <;> simp_all <;> tauto

lemma castleMoves_mem_wq (s : GameState) (sr : Int) :
    ((sr, (2 : Int)) ∈ castleMoves s true sr) ↔
      (s.white_king_moved = false ∧ s.white_rook_moved_q = false ∧
       s.board sr 0 = 2 ∧ s.board sr 1 = 0 ∧ s.board sr 2 = 0 ∧
       s.board sr 3 = 0) := by
  simp only [castleMoves]
  split_ifs <;> simp_all <;> tauto

lemma castleMoves_mem_bk (s : GameState) (sr : Int) :
    ((sr, (6 : Int)) ∈ castleMoves s false sr) ↔
      (s.black_king_moved = false ∧ s.black_rook_moved_k = false ∧
       s.board sr 7 = 8 ∧ s.board sr 5 = 0 ∧ s.board sr 6 = 0) := by
  simp only [castleMoves]
  split_ifs <;> simp_all <;> tauto

lemma castleMoves_mem_bq (s : GameState) (sr : Int) :
    ((sr, (2 : Int)) ∈ castleMoves s false sr) ↔
      (s.black_king_moved = false ∧ s.black_rook_moved_q = false ∧
       s.board sr 0 = 8 ∧ s.board sr 1 = 0 ∧ s.board sr 2 = 0 ∧
       s.board sr 3 = 0) := by
  simp only [castleMoves]
  split_ifs <;> simp_all <;> tauto

lemma is_castling_wk (s : GameState) :
    is_castling_move s 7 4 7 6 true = true ↔
      (s.white_king_moved = false ∧ s.white_rook_moved_k = false ∧
       s.board 7 7 = 2 ∧ s.board 7 5 = 0 ∧ s.board 7 6 = 0) := by
  simp only [is_castling_move]
  norm_num
  tauto

lemma is_castling_wq (s : GameState) :
    is_castling_move s 7 4 7 2 true = true ↔
      (s.white_king_moved = false ∧ s.white_rook_moved_q = false ∧
       s.board 7 0 = 2 ∧ s.board 7 1 = 0 ∧ s.board 7 2 = 0 ∧
       s.board 7 3 = 0) := by
  simp only [is_castling_move]
  norm_num
  tauto

lemma is_castling_bk (s : GameState) :
    is_castling_move s 0 4 0 6 false = true ↔
      (s.black_king_moved = false ∧ s.black_rook_moved_k = false ∧
       s.board 0 7 = 8 ∧ s.board 0 5 = 0 ∧ s.board 0 6 = 0) := by
  simp only [is_castling_move]
  norm_num
  tauto

lemma is_castling_bq (s : GameState) :
    is_castling_move s 0 4 0 2 false = true ↔
      (s.black_king_moved = false ∧ s.black_rook_moved_q = false ∧
       s.board 0 0 = 8 ∧ s.board 0 1 = 0 ∧ s.board 0 2 = 0 ∧
       s.board 0 3 = 0) := by
  simp only [is_castling_move]
  norm_num
  tauto

/-- C1 amended: when the king of the side to move stands on its
home-rank start square (row 7 column 4 for White, row 0 column 4 for
Black), the King branch offers the castling candidate two columns
right (column 6) respectively left (column 2) if and only if
`is_castling_move` accepts that (origin, destination) pair for that
side; generation itself never checks the king's position, so from any
other origin it can offer castling-shaped candidates that the
eligibility check rejects (see the counterexample). -/
theorem C1_amended_castling_consistency (s : GameState) (w : Bool)
    (hk : s.board (if w then 7 else 0) 4 = (if w then 6 else 12)) :
    (((if w then (7 : Int) else 0), (6 : Int)) ∈
        get_possible_moves s (if w then 7 else 0) 4 ↔
      is_castling_move s (if w then 7 else 0) 4 (if w then 7 else 0) 6 w
        = true) ∧
    (((if w then (7 : Int) else 0), (2 : Int)) ∈
        get_possible_moves s (if w then 7 else 0) 4 ↔
      is_castling_move s (if w then 7 else 0) 4 (if w then 7 else 0) 2 w
        = true) := by
  cases w <;> norm_num at hk ⊢
  · have e := get_possible_moves_king_black s 0 4 hk
    refine ⟨?_, ?_⟩
    · rw [e, List.mem_append, castleMoves_mem_bk, is_castling_bk]
      constructor
      · rintro (hmem | hc)
        · exfalso
          have h2 := kingAdj_col _ _ _ _ _ _ hmem
          omega
        · exact hc
      · exact fun hc => Or.inr hc
    · rw [e, List.mem_append, castleMoves_mem_bq, is_castling_bq]
      constructor
      · rintro (hmem | hc)
        · exfalso
          have h2 := kingAdj_col _ _ _ _ _ _ hmem
          omega
        · exact hc
      · exact fun hc => Or.inr hc
  · have e := get_possible_moves_king_white s 7 4 hk
    refine ⟨?_, ?_⟩
    · rw [e, List.mem_append, castleMoves_mem_wk, is_castling_wk]
      constructor
      · rintro (hmem | hc)
        · exfalso
          have h2 := kingAdj_col _ _ _ _ _ _ hmem
          omega
        · exact hc
      · exact fun hc => Or.inr hc
    · rw [e, List.mem_append, castleMoves_mem_wq, is_castling_wq]
      constructor
      · rintro (hmem | hc)
        · exfalso
          have h2 := kingAdj_col _ _ _ _ _ _ hmem
          omega
        · exact hc
      · exact fun hc => Or.inr hc

/-- C1 witness for the amended statement: on the initial position the
equivalence holds for White (both sides of each iff are false since
the intervening squares are occupied). -/
theorem C1_witness :
    (((7 : Int), (6 : Int)) ∈ get_possible_moves initialState 7 4 ↔
      is_castling_move initialState 7 4 7 6 true = true) ∧
    (((7 : Int), (2 : Int)) ∈ get_possible_moves initialState 7 4 ↔
      is_castling_move initialState 7 4 7 2 true = true) :=
  C1_amended_castling_consistency initialState true (by decide)

/-! ## C6 -/

lemma mem_ite_list {α : Type} {P : Prop} [Decidable P] {l : List α}
    {y : α} : (y ∈ if P then l else []) ↔ P ∧ y ∈ l := by
  split_ifs with h <;> simp [h]

lemma get_possible_moves_pawn_white (s : GameState) (row col : Int)
    (hcode : s.board row col = 1) :
    get_possible_moves s row col = pawnMoves s true row col := by
  simp [get_possible_moves, hcode]

lemma get_possible_moves_pawn_black (s : GameState) (row col : Int)
    (hcode : s.board row col = 7) :
    get_possible_moves s row col = pawnMoves s false row col := by
  simp [get_possible_moves, hcode]

/-- Every white-pawn candidate is one row up, except the double step,
which requires the start row 6 and both squares ahead empty. -/
lemma pawnMoves_mem_white (s : GameState) (row col er ec : Int)
    (h : (er, ec) ∈ pawnMoves s true row col) :
    er = row - 1 ∨
      (er = row - 2 ∧ ec = col ∧ row = 6 ∧
       s.board (row - 1) col = 0 ∧ s.board (row - 2) col = 0) := by
  simp only [pawnMoves] at h
  cases hept : s.en_passant_target with
  | none =>
    rw [hept] at h
    simp only [mem_ite_list, List.mem_append, List.mem_flatMap, List.mem_cons,
      List.mem_singleton, Bool.and_eq_true, beq_iff_eq, decide_eq_true_eq,
      if_true, List.not_mem_nil, or_false, Prod.mk.injEq] at h
    rcases h with ⟨⟨hin, hemp⟩, ⟨he, hc⟩ | ⟨⟨hrow, hemp2⟩, he, hc⟩⟩ |
      ⟨a, ha, hrest, he, hc⟩
    · left; omega
    · right
      refine ⟨by omega, hc, hrow, ?_, ?_⟩
      · have e1 : row - 1 = row + -1 := by ring
        rw [e1]; exact hemp
      · have e2 : row - 2 = row + 2 * -1 := by ring
        rw [e2]; exact hemp2
    · left; omega
  | some t =>
    obtain ⟨a, b2⟩ := t
    rw [hept] at h
    simp only [mem_ite_list, List.mem_append, List.mem_flatMap, List.mem_cons,
      List.mem_singleton, Bool.and_eq_true, beq_iff_eq, decide_eq_true_eq,
      if_true, List.not_mem_nil, or_false, Prod.mk.injEq] at h
    rcases h with (⟨⟨hin, hemp⟩, ⟨he, hc⟩ | ⟨⟨hrow, hemp2⟩, he, hc⟩⟩ |
      ⟨a2, ha, hrest, he, hc⟩) | ⟨⟨⟨hr3, hnat⟩, hA⟩, he, hc⟩
    · left; omega
    · right
      refine ⟨by omega, hc, hrow, ?_, ?_⟩
      · have e1 : row - 1 = row + -1 := by ring
        rw [e1]; exact hemp
      · have e2 : row - 2 = row + 2 * -1 := by ring
        rw [e2]; exact hemp2
    · left; omega
    · left; omega

/-- Every black-pawn candidate is one row down, except the double
step, which requires the start row 1 and both squares ahead empty. -/
lemma pawnMoves_mem_black (s : GameState) (row col er ec : Int)
    (h : (er, ec) ∈ pawnMoves s false row col) :
    er = row + 1 ∨
      (er = row + 2 ∧ ec = col ∧ row = 1 ∧
       s.board (row + 1) col = 0 ∧ s.board (row + 2) col = 0) := by
  simp only [pawnMoves] at h
  cases hept : s.en_passant_target with
  | none =>
    rw [hept] at h
    simp only [mem_ite_list, List.mem_append, List.mem_flatMap, List.mem_cons,
      List.mem_singleton, Bool.and_eq_true, beq_iff_eq, decide_eq_true_eq,
      if_true, if_false, Bool.false_eq_true, List.not_mem_nil, or_false,
      Prod.mk.injEq] at h
    rcases h with ⟨⟨hin, hemp⟩, ⟨he, hc⟩ | ⟨⟨hrow, hemp2⟩, he, hc⟩⟩ |
      ⟨a, ha, hrest, he, hc⟩
    · left; omega
    · right
      refine ⟨by omega, hc, hrow, ?_, ?_⟩
      · exact hemp
      · have e2 : row + 2 = row + 2 * 1 := by ring
        rw [e2]; exact hemp2
    · left; omega
  | some t =>
    obtain ⟨a, b2⟩ := t
    rw [hept] at h
    simp only [mem_ite_list, List.mem_append, List.mem_flatMap, List.mem_cons,
      List.mem_singleton, Bool.and_eq_true, beq_iff_eq, decide_eq_true_eq,
      if_true, if_false, Bool.false_eq_true, List.not_mem_nil, or_false,
      Prod.mk.injEq] at h
    rcases h with (⟨⟨hin, hemp⟩, ⟨he, hc⟩ | ⟨⟨hrow, hemp2⟩, he, hc⟩⟩ |
      ⟨a2, ha, hrest, he, hc⟩) | ⟨⟨⟨hr4, hnat⟩, hA⟩, he, hc⟩
    · left; omega
    · right
      refine ⟨by omega, hc, hrow, ?_, ?_⟩
      · exact hemp
      · have e2 : row + 2 = row + 2 * 1 := by ring
        rw [e2]; exact hemp2
    · left; omega
    · left; omega

/-- A generated pawn move spanning two rows is necessarily the double
step from the start rank, straight ahead, with the passed-over square
and the destination both empty. -/
lemma pawn_double_step (s : GameState) (sr sc er ec : Int)
    (hp : s.board sr sc = 1 ∨ s.board sr sc = 7)
    (hmem : (er, ec) ∈ get_possible_moves s sr sc)
    (h2 : (er - sr).natAbs = 2) :
    ec = sc ∧
    ((s.board sr sc = 1 ∧ sr = 6 ∧ er = 4) ∨
     (s.board sr sc = 7 ∧ sr = 1 ∧ er = 3)) ∧
    s.board ((sr + er).fdiv 2) sc = 0 ∧ s.board er sc = 0 := by
  rcases hp with hp | hp
  · rw [get_possible_moves_pawn_white s sr sc hp] at hmem
    rcases pawnMoves_mem_white s sr sc er ec hmem with h | ⟨he, hc, hrow, hm1, hm2⟩
    · omega
    · have hsr : sr = 6 := hrow
      have her : er = 4 := by omega
      subst hsr; subst her; subst hc
      refine ⟨rfl, Or.inl ⟨hp, rfl, rfl⟩, ?_, ?_⟩
      · have e0 : ((6 : Int) + 4).fdiv 2 = 5 := by decide
        rw [e0]
        have e : (5 : Int) = 6 - 1 := by norm_num
        rw [e]; exact hm1
      · have e : (4 : Int) = 6 - 2 := by norm_num
        rw [e]; exact hm2
  · rw [get_possible_moves_pawn_black s sr sc hp] at hmem
    rcases pawnMoves_mem_black s sr sc er ec hmem with h | ⟨he, hc, hrow, hm1, hm2⟩
    · omega
    · have hsr : sr = 1 := hrow
      have her : er = 3 := by omega
      subst hsr; subst her; subst hc
      refine ⟨rfl, Or.inr ⟨hp, rfl, rfl⟩, ?_, ?_⟩
      · have e0 : ((1 : Int) + 3).fdiv 2 = 2 := by decide
        rw [e0]
        have e : (2 : Int) = 1 + 1 := by norm_num
        rw [e]; exact hm1
      · have e : (3 : Int) = 1 + 2 := by norm_num
        rw [e]; exact hm2

/-- C6: on every accepted turn, the en-passant target ends up set —
to the square between origin and destination, i.e. row (sr+er)/2 and
the shared column — exactly when the moved occupant was a pawn
advancing two rows from its start rank (White 6 → 4, Black 1 → 3);
after every other accepted move it is cleared to none. -/
theorem C6_en_passant_target_lifecycle (s : GameState) (sr sc er ec : Int)
    (h : (applyTurn s sr sc er ec).2 = Status.moveApplied) :
    (((s.board sr sc = 1 ∧ sr = 6 ∧ er = 4) ∨
      (s.board sr sc = 7 ∧ sr = 1 ∧ er = 3)) →
      ec = sc ∧
      (applyTurn s sr sc er ec).1.en_passant_target
        = some ((sr + er).fdiv 2, sc)) ∧
    (¬((s.board sr sc = 1 ∧ sr = 6 ∧ er = 4) ∨
       (s.board sr sc = 7 ∧ sr = 1 ∧ er = 3)) →
      (applyTurn s sr sc er ec).1.en_passant_target = none) := by
  have heq := applyTurn_accepted s sr sc er ec h
  rcases (applyTurn_accepted_iff s sr sc er ec).1 h with ⟨_, _, hmem⟩
  rw [heq]
  simp only
  rw [postTurn_ep]
  constructor
  · intro hP
    have hcond : (s.board sr sc = 1 ∨ s.board sr sc = 7) ∧
        (er - sr).natAbs = 2 := by
      rcases hP with ⟨h1, h2, h3⟩ | ⟨h1, h2, h3⟩
      · exact ⟨Or.inl h1, by omega⟩
      · exact ⟨Or.inr h1, by omega⟩
    rw [if_pos hcond]
    have hds := pawn_double_step s sr sc er ec hcond.1 hmem hcond.2
    exact ⟨hds.1, rfl⟩
  · intro hP
    have hcond : ¬((s.board sr sc = 1 ∨ s.board sr sc = 7) ∧
        (er - sr).natAbs = 2) := by
      intro hcond
      exact hP (pawn_double_step s sr sc er ec hcond.1 hmem hcond.2).2.1
    rw [if_neg hcond]

/-- C6 witness: the double step e2-e4 from the initial position sets
the target to e3, the square (5,4). -/
theorem C6_witness :
    (4 : Int) = 4 ∧
    (applyTurn initialState 6 4 4 4).1.en_passant_target
      = some (((6 : Int) + 4).fdiv 2, 4) :=
  (C6_en_passant_target_lifecycle initialState 6 4 4 4 (by decide)).1
    (Or.inl ⟨by decide, rfl, rfl⟩)


/-! ## C7 -/

lemma rayMoves_mem (b : Board) (white : Bool) (dr dc : Int) :
    ∀ (fuel : Nat) (r c er ec : Int),
      ((er, ec) ∈ rayMoves b white dr dc fuel r c) ↔
        ∃ k : Nat, k < fuel ∧ er = r + k * dr ∧ ec = c + k * dc ∧
          (∀ j : Nat, j ≤ k → in_bounds (r + j * dr) (c + j * dc) = true) ∧
          (∀ j : Nat, j < k → b (r + j * dr) (c + j * dc) = 0) ∧
          (b er ec = 0 ∨
            (b er ec ≠ 0 ∧ (decide (b er ec ≤ 6) != white) = true)) := by
  intro fuel
  induction fuel with
  | zero =>
    intro r c er ec
    simp [rayMoves]
  | succ fuel ih =>
    intro r c er ec
    have acc : ∀ (j : Nat) (x dx : Int),
        x + dx + (j : Int) * dx = x + ((j + 1 : Nat) : Int) * dx := by
      intro j x dx; push_cast; ring
    simp only [rayMoves]
    by_cases hin : in_bounds r c = true
    · rw [if_pos hin]
      by_cases h0 : b r c = 0
      · rw [if_pos (by simp [h0])]
        rw [List.mem_cons, ih]
        constructor
        · rintro (he | ⟨k, hk, he1, he2, hbnd, hemp, hlast⟩)
          · rw [Prod.mk.injEq] at he
            obtain ⟨rfl, rfl⟩ := he
            refine ⟨0, by omega, by simp, by simp, ?_, ?_, Or.inl h0⟩
            · intro j hj
              have hj0 : j = 0 := by omega
              subst hj0
              simpa using hin
            · intro j hj
              omega
          · refine ⟨k + 1, by omega, ?_, ?_, ?_, ?_, hlast⟩
            · rw [he1, acc]
            · rw [he2, acc]
            · intro j hj
              match j with
              | 0 => simpa using hin
              | j' + 1 =>
                rw [← acc, ← acc]
                exact hbnd j' (by omega)
            · intro j hj
              match j with
              | 0 => simpa using h0
              | j' + 1 =>
                rw [← acc, ← acc]
                exact hemp j' (by omega)
        · rintro ⟨k, hk, he1, he2, hbnd, hemp, hlast⟩
          match k with
          | 0 =>
            left
            have her : er = r := by simpa using he1
            have hec : ec = c := by simpa using he2
            rw [Prod.mk.injEq]
            exact ⟨her, hec⟩
          | k' + 1 =>
            right
            refine ⟨k', by omega, ?_, ?_, ?_, ?_, hlast⟩
            · rw [acc]
              exact he1
            · rw [acc]
              exact he2
            · intro j hj
              rw [acc, acc]
              exact hbnd (j + 1) (by omega)
            · intro j hj
              rw [acc, acc]
              exact hemp (j + 1) (by omega)
      · rw [if_neg (by simp [h0])]
        by_cases hside : (decide (b r c ≤ 6) != white) = true
        · rw [if_pos hside]
          rw [List.mem_singleton]
          constructor
          · intro he
            rw [Prod.mk.injEq] at he
            obtain ⟨rfl, rfl⟩ := he
            refine ⟨0, by omega, by simp, by simp, ?_, by omega, Or.inr ⟨h0, hside⟩⟩
            · intro j hj
              have hj0 : j = 0 := by omega
              subst hj0
              simpa using hin
          · rintro ⟨k, hk, he1, he2, hbnd, hemp, hlast⟩
            match k with
            | 0 =>
              have her : er = r := by simpa using he1
              have hec : ec = c := by simpa using he2
              rw [Prod.mk.injEq]
              exact ⟨her, hec⟩
            | k' + 1 =>
              exfalso
              have := hemp 0 (by omega)
              simp at this
              exact h0 this
        · rw [if_neg hside]
          simp only [List.not_mem_nil, false_iff]
          rintro ⟨k, hk, he1, he2, hbnd, hemp, hlast⟩
          match k with
          | 0 =>
            have her : er = r := by simpa using he1
            have hec : ec = c := by simpa using he2
            subst her; subst hec
            rcases hlast with hl | ⟨hl1, hl2⟩
            · exact h0 hl
            · exact hside hl2
          | k' + 1 =>
            have := hemp 0 (by omega)
            simp at this
            exact h0 this
    · rw [if_neg hin]
      simp only [List.not_mem_nil, false_iff]
      rintro ⟨k, hk, he1, he2, hbnd, hemp, hlast⟩
      have := hbnd 0 (by omega)
      simp at this
      exact hin this

lemma ray_shift (b : Board) (white : Bool) (dr dc row col : Int)
    (hdr : dr = -1 ∨ dr = 0 ∨ dr = 1) (hdc : dc = -1 ∨ dc = 0 ∨ dc = 1)
    (hnz : ¬(dr = 0 ∧ dc = 0)) (hin : in_bounds row col = true)
    (er ec : Int) :
    ((er, ec) ∈ rayMoves b white dr dc 16 (row + dr) (col + dc)) ↔
      ∃ k : Nat, 1 ≤ k ∧ er = row + k * dr ∧ ec = col + k * dc ∧
        (∀ j : Nat, 1 ≤ j → j ≤ k →
          in_bounds (row + j * dr) (col + j * dc) = true) ∧
        (∀ j : Nat, 1 ≤ j → j < k →
          b (row + j * dr) (col + j * dc) = 0) ∧
        (b er ec = 0 ∨
          (b er ec ≠ 0 ∧ (decide (b er ec ≤ 6) != white) = true)) := by
  rw [rayMoves_mem]
  have acc : ∀ (j : Nat) (x dx : Int),
      x + dx + (j : Int) * dx = x + ((j + 1 : Nat) : Int) * dx := by
    intro j x dx; push_cast; ring
  constructor
  · rintro ⟨k, hk, he1, he2, hbnd, hemp, hlast⟩
    refine ⟨k + 1, by omega, ?_, ?_, ?_, ?_, hlast⟩
    · rw [← acc]; exact he1
    · rw [← acc]; exact he2
    · intro j h1 h2
      obtain ⟨j', rfl⟩ : ∃ j', j = j' + 1 := ⟨j - 1, by omega⟩
      rw [← acc, ← acc]
      exact hbnd j' (by omega)
    · intro j h1 h2
      obtain ⟨j', rfl⟩ : ∃ j', j = j' + 1 := ⟨j - 1, by omega⟩
      rw [← acc, ← acc]
      exact hemp j' (by omega)
  · rintro ⟨k, hk, he1, he2, hbnd, hemp, hlast⟩
    obtain ⟨k', rfl⟩ : ∃ k', k = k' + 1 := ⟨k - 1, by omega⟩
    have hbk := hbnd (k' + 1) (by omega) (le_refl _)
    have hb0 : ((0:Int) ≤ row ∧ row < 8) ∧ (0:Int) ≤ col ∧ col < 8 := by
      simpa [in_bounds, and_assoc] using hin
    have hbk2 : ((0:Int) ≤ row + ((k'+1 : Nat) : Int) * dr ∧
        row + ((k'+1 : Nat) : Int) * dr < 8) ∧
        (0:Int) ≤ col + ((k'+1 : Nat) : Int) * dc ∧
        col + ((k'+1 : Nat) : Int) * dc < 8 := by
      simpa [in_bounds, and_assoc] using hbk
    have hone : dr ≠ 0 ∨ dc ≠ 0 := by
      by_contra hcon
      push_neg at hcon
      exact hnz ⟨hcon.1, hcon.2⟩
    have hk16 : k' < 16 := by
      obtain ⟨⟨a1, a2⟩, a3, a4⟩ := hbk2
      obtain ⟨⟨b1, b2⟩, b3, b4⟩ := hb0
      push_cast at a1 a2 a3 a4
      rcases hdr with rfl | rfl | rfl <;> rcases hdc with rfl | rfl | rfl <;>
        rcases hone with h0 | h0 <;> omega
    refine ⟨k', hk16, ?_, ?_, ?_, ?_, hlast⟩
    · rw [acc]; exact he1
    · rw [acc]; exact he2
    · intro j hj
      rw [acc, acc]
      exact hbnd (j + 1) (by omega) (by omega)
    · intro j hj
      rw [acc, acc]
      exact hemp (j + 1) (by omega) (by omega)

lemma slideMoves_mem (b : Board) (white : Bool) (row col : Int)
    (dirs : List (Int × Int))
    (hdirs : ∀ d ∈ dirs, (d.1 = -1 ∨ d.1 = 0 ∨ d.1 = 1) ∧
      (d.2 = -1 ∨ d.2 = 0 ∨ d.2 = 1) ∧ ¬(d.1 = 0 ∧ d.2 = 0))
    (hin : in_bounds row col = true) (er ec : Int) :
    ((er, ec) ∈ slideMoves b white row col dirs) ↔
      ∃ d ∈ dirs, ∃ k : Nat, 1 ≤ k ∧
        er = row + k * d.1 ∧ ec = col + k * d.2 ∧
        (∀ j : Nat, 1 ≤ j → j ≤ k →
          in_bounds (row + j * d.1) (col + j * d.2) = true) ∧
        (∀ j : Nat, 1 ≤ j → j < k →
          b (row + j * d.1) (col + j * d.2) = 0) ∧
        (b er ec = 0 ∨
          (b er ec ≠ 0 ∧ (decide (b er ec ≤ 6) != white) = true)) := by
  simp only [slideMoves, List.mem_flatMap]
  constructor
  · rintro ⟨d, hd, hm⟩
    obtain ⟨h1, h2, h3⟩ := hdirs d hd
    exact ⟨d, hd, (ray_shift b white d.1 d.2 row col h1 h2 h3 hin er ec).1 hm⟩
  · rintro ⟨d, hd, hk⟩
    obtain ⟨h1, h2, h3⟩ := hdirs d hd
    exact ⟨d, hd, (ray_shift b white d.1 d.2 row col h1 h2 h3 hin er ec).2 hk⟩

lemma get_possible_moves_rook_white (s : GameState) (row col : Int)
    (hcode : s.board row col = 2) :
    get_possible_moves s row col = slideMoves s.board true row col rookDirs := by
  simp [get_possible_moves, hcode]

lemma get_possible_moves_rook_black (s : GameState) (row col : Int)
    (hcode : s.board row col = 8) :
    get_possible_moves s row col = slideMoves s.board false row col rookDirs := by
  simp [get_possible_moves, hcode]

lemma get_possible_moves_bishop_white (s : GameState) (row col : Int)
    (hcode : s.board row col = 4) :
    get_possible_moves s row col
      = slideMoves s.board true row col bishopDirs := by
  simp [get_possible_moves, hcode]

lemma get_possible_moves_bishop_black (s : GameState) (row col : Int)
    (hcode : s.board row col = 10) :
    get_possible_moves s row col
      = slideMoves s.board false row col bishopDirs := by
  simp [get_possible_moves, hcode]

lemma get_possible_moves_queen_white (s : GameState) (row col : Int)
    (hcode : s.board row col = 5) :
    get_possible_moves s row col = slideMoves s.board true row col queenDirs := by
  simp [get_possible_moves, hcode]

lemma get_possible_moves_queen_black (s : GameState) (row col : Int)
    (hcode : s.board row col = 11) :
    get_possible_moves s row col
      = slideMoves s.board false row col queenDirs := by
  simp [get_possible_moves, hcode]

/-- C7: for a sliding piece (rook, bishop or queen of either side) on
an in-bounds origin, a square is a generated candidate exactly when it
lies k ≥ 1 steps along one of the piece's ray directions, every ray
square up to it is in bounds, every strictly earlier ray square is
empty, and the square itself is empty or holds an occupant of the
opposite side to the mover; in particular no candidate lies beyond
the first occupied square of a ray. -/
theorem C7_sliding_rays (s : GameState) (row col : Int)
    (hin : in_bounds row col = true) (dirs : List (Int × Int))
    (hpiece :
      ((s.board row col = 2 ∨ s.board row col = 8) ∧ dirs = rookDirs) ∨
      ((s.board row col = 4 ∨ s.board row col = 10) ∧ dirs = bishopDirs) ∨
      ((s.board row col = 5 ∨ s.board row col = 11) ∧ dirs = queenDirs))
    (er ec : Int) :
    (er, ec) ∈ get_possible_moves s row col ↔
      ∃ d ∈ dirs, ∃ k : Nat, 1 ≤ k ∧
        er = row + k * d.1 ∧ ec = col + k * d.2 ∧
        (∀ j : Nat, 1 ≤ j → j ≤ k →
          in_bounds (row + j * d.1) (col + j * d.2) = true) ∧
        (∀ j : Nat, 1 ≤ j → j < k →
          s.board (row + j * d.1) (col + j * d.2) = 0) ∧
        (s.board er ec = 0 ∨
          (s.board er ec ≠ 0 ∧
            (decide (s.board er ec ≤ 6)
              != decide (s.board row col ≤ 6)) = true)) := by
  have hdR : ∀ d ∈ rookDirs, (d.1 = -1 ∨ d.1 = 0 ∨ d.1 = 1) ∧
      (d.2 = -1 ∨ d.2 = 0 ∨ d.2 = 1) ∧ ¬(d.1 = 0 ∧ d.2 = 0) := by decide
  have hdB : ∀ d ∈ bishopDirs, (d.1 = -1 ∨ d.1 = 0 ∨ d.1 = 1) ∧
      (d.2 = -1 ∨ d.2 = 0 ∨ d.2 = 1) ∧ ¬(d.1 = 0 ∧ d.2 = 0) := by decide
  have hdQ : ∀ d ∈ queenDirs, (d.1 = -1 ∨ d.1 = 0 ∨ d.1 = 1) ∧
      (d.2 = -1 ∨ d.2 = 0 ∨ d.2 = 1) ∧ ¬(d.1 = 0 ∧ d.2 = 0) := by decide
  rcases hpiece with ⟨hc, rfl⟩ | ⟨hc, rfl⟩ | ⟨hc, rfl⟩ <;> rcases hc with hc | hc
  · rw [get_possible_moves_rook_white s row col hc, hc,
      show decide ((2 : Nat) ≤ 6) = true from rfl]
    exact slideMoves_mem s.board true row col rookDirs hdR hin er ec
  · rw [get_possible_moves_rook_black s row col hc, hc,
      show decide ((8 : Nat) ≤ 6) = false from rfl]
    exact slideMoves_mem s.board false row col rookDirs hdR hin er ec
  · rw [get_possible_moves_bishop_white s row col hc, hc,
      show decide ((4 : Nat) ≤ 6) = true from rfl]
    exact slideMoves_mem s.board true row col bishopDirs hdB hin er ec
  · rw [get_possible_moves_bishop_black s row col hc, hc,
      show decide ((10 : Nat) ≤ 6) = false from rfl]
    exact slideMoves_mem s.board false row col bishopDirs hdB hin er ec
  · rw [get_possible_moves_queen_white s row col hc, hc,
      show decide ((5 : Nat) ≤ 6) = true from rfl]
    exact slideMoves_mem s.board true row col queenDirs hdQ hin er ec
  · rw [get_possible_moves_queen_black s row col hc, hc,
      show decide ((11 : Nat) ≤ 6) = false from rfl]
    exact slideMoves_mem s.board false row col queenDirs hdQ hin er ec

/-- State for the C7 witness: a lone white rook on (0,0). -/
def rookWitnessState : GameState :=
  { initialState with board := fun r c =>
      if r == 0 && c == 0 then 2 else 0 }

/-- C7 witness: the ray characterisation instantiated for the lone
rook at (0,0) and the square (0,3). -/
theorem C7_witness :
    ((0 : Int), (3 : Int)) ∈ get_possible_moves rookWitnessState 0 0 ↔
      ∃ d ∈ rookDirs, ∃ k : Nat, 1 ≤ k ∧
        (0 : Int) = 0 + k * d.1 ∧ (3 : Int) = 0 + k * d.2 ∧
        (∀ j : Nat, 1 ≤ j → j ≤ k →
          in_bounds (0 + j * d.1) (0 + j * d.2) = true) ∧
        (∀ j : Nat, 1 ≤ j → j < k →
          rookWitnessState.board (0 + j * d.1) (0 + j * d.2) = 0) ∧
        (rookWitnessState.board 0 3 = 0 ∨
          (rookWitnessState.board 0 3 ≠ 0 ∧
            (decide (rookWitnessState.board 0 3 ≤ 6)
              != decide (rookWitnessState.board 0 0 ≤ 6)) = true)) :=
  C7_sliding_rays rookWitnessState 0 0 (by decide) rookDirs
    (Or.inl ⟨Or.inl (by decide), rfl⟩) 0 3


/-! ## C9 -/

lemma is_enemy_agree (s : GameState) (b' : Board) (white : Bool) (r c : Int)
    (hb : b' r c = s.board r c) :
    is_enemy b' white r c = is_enemy s.board white r c := by
  simp only [is_enemy, hb]

lemma pawnMoves_agree (s : GameState) (b' : Board) (white : Bool)
    (row col : Int) (hin : in_bounds row col = true)
    (hag : ∀ r c : Int, in_bounds r c = true → b' r c = s.board r c) :
    pawnMoves { s with board := b' } white row col
      = pawnMoves s white row col := by
  have hrc : ((0:Int) ≤ row ∧ row < 8) ∧ (0:Int) ≤ col ∧ col < 8 := by
    simpa [in_bounds, and_assoc] using hin
  simp only [pawnMoves]
  congr 1
  · congr 1
    case _ =>
      by_cases hf : in_bounds (row + (if white then (-1:Int) else 1)) col = true
      · simp only [hag _ _ hf]
        by_cases hs : row = (if white then (6:Int) else 1)
        · have h4 : in_bounds (row + 2 * (if white then (-1:Int) else 1)) col
              = true := by
            cases white <;> subst hs <;> simp [in_bounds] <;> omega
          simp only [hag _ _ h4]
        · have hb : (row == (if white then (6:Int) else 1)) = false := by
            simp [hs]
          simp [hb]
      · have hb : in_bounds (row + (if white then (-1:Int) else 1)) col
            = false := by simpa using hf
        simp [hb]
    case _ =>
      congr 1
      funext dc
      by_cases hc : in_bounds (row + (if white then (-1:Int) else 1)) (col + dc)
          = true
      · simp only [is_enemy_agree s b' white _ _ (hag _ _ hc)]
      · have hb : in_bounds (row + (if white then (-1:Int) else 1)) (col + dc)
            = false := by simpa using hc
        simp [hb]

lemma pawnMoves_bounds (s : GameState) (white : Bool) (row col : Int)
    (hin : in_bounds row col = true)
    (hep : ∀ er ec : Int, s.en_passant_target = some (er, ec) →
      in_bounds er ec = true)
    (m : Int × Int) (h : m ∈ pawnMoves s white row col) :
    in_bounds m.1 m.2 = true := by
  obtain ⟨er, ec⟩ := m
  have hrc : ((0:Int) ≤ row ∧ row < 8) ∧ (0:Int) ≤ col ∧ col < 8 := by
    simpa [in_bounds, and_assoc] using hin
  simp only [pawnMoves] at h
  cases white
  · rcases hept : s.en_passant_target with _ | ⟨a, b2⟩
    · -- black, no target
        rw [hept] at h
        simp only [mem_ite_list, List.mem_append, List.mem_flatMap, List.mem_cons,
          List.mem_singleton, Bool.and_eq_true, beq_iff_eq, decide_eq_true_eq,
          if_true, if_false, Bool.false_eq_true, List.not_mem_nil, or_false,
          Prod.mk.injEq] at h
        rcases h with ⟨⟨hg, hemp⟩, ⟨rfl, rfl⟩ | ⟨⟨hrow, hemp2⟩, rfl, rfl⟩⟩ |
          ⟨a, ha, ⟨hg, hen⟩, rfl, rfl⟩
        · exact hg
        · subst hrow
          simp only [in_bounds]
          norm_num
          omega
        · exact hg
    · -- black, target set
        rw [hept] at h
        simp only [mem_ite_list, List.mem_append, List.mem_flatMap, List.mem_cons,
          List.mem_singleton, Bool.and_eq_true, beq_iff_eq, decide_eq_true_eq,
          if_true, if_false, Bool.false_eq_true, List.not_mem_nil, or_false,
          Prod.mk.injEq] at h
        rcases h with (⟨⟨hg, hemp⟩, ⟨rfl, rfl⟩ | ⟨⟨hrow, hemp2⟩, rfl, rfl⟩⟩ |
          ⟨a2, ha, ⟨hg, hen⟩, rfl, rfl⟩) | ⟨hcnd, he1, he2⟩
        · exact hg
        · subst hrow
          simp only [in_bounds]
          norm_num
          omega
        · exact hg
        · rw [he1, he2]
          simpa using hep a b2 hept
  · rcases hept : s.en_passant_target with _ | ⟨a, b2⟩
    · -- white, no target
        rw [hept] at h
        simp only [mem_ite_list, List.mem_append, List.mem_flatMap, List.mem_cons,
          List.mem_singleton, Bool.and_eq_true, beq_iff_eq, decide_eq_true_eq,
          if_true, if_false, Bool.false_eq_true, List.not_mem_nil, or_false,
          Prod.mk.injEq] at h
        rcases h with ⟨⟨hg, hemp⟩, ⟨rfl, rfl⟩ | ⟨⟨hrow, hemp2⟩, rfl, rfl⟩⟩ |
          ⟨a, ha, ⟨hg, hen⟩, rfl, rfl⟩
        · exact hg
        · subst hrow
          simp only [in_bounds]
          norm_num
          omega
        · exact hg
    · -- white, target set
        rw [hept] at h
        simp only [mem_ite_list, List.mem_append, List.mem_flatMap, List.mem_cons,
          List.mem_singleton, Bool.and_eq_true, beq_iff_eq, decide_eq_true_eq,
          if_true, if_false, Bool.false_eq_true, List.not_mem_nil, or_false,
          Prod.mk.injEq] at h
        rcases h with (⟨⟨hg, hemp⟩, ⟨rfl, rfl⟩ | ⟨⟨hrow, hemp2⟩, rfl, rfl⟩⟩ |
          ⟨a2, ha, ⟨hg, hen⟩, rfl, rfl⟩) | ⟨hcnd, he1, he2⟩
        · exact hg
        · subst hrow
          simp only [in_bounds]
          norm_num
          omega
        · exact hg
        · rw [he1, he2]
          simpa using hep a b2 hept

lemma rayMoves_bounds (b : Board) (white : Bool) (dr dc : Int) :
    ∀ (fuel : Nat) (r c : Int) (m : Int × Int),
      m ∈ rayMoves b white dr dc fuel r c → in_bounds m.1 m.2 = true := by
  intro fuel
  induction fuel with
  | zero =>
    intro r c m h
    simp [rayMoves] at h
  | succ fuel ih =>
    intro r c m h
    simp only [rayMoves] at h
    split_ifs at h with h1 h2 h3
    · rcases List.mem_cons.1 h with rfl | h
      · simpa using h1
      · exact ih _ _ _ h
    · rcases List.mem_singleton.1 h with rfl
      simpa using h1
    · simp at h
    · simp at h

lemma rayMoves_agree (b b' : Board) (white : Bool) (dr dc : Int)
    (hag : ∀ r c : Int, in_bounds r c = true → b' r c = b r c) :
    ∀ (fuel : Nat) (r c : Int),
      rayMoves b' white dr dc fuel r c = rayMoves b white dr dc fuel r c := by
  intro fuel
  induction fuel with
  | zero => intro r c; rfl
  | succ fuel ih =>
    intro r c
    simp only [rayMoves]
    by_cases h1 : in_bounds r c = true
    · simp only [hag r c h1, ih]
    · simp [h1]

lemma slideMoves_bounds (b : Board) (white : Bool) (row col : Int)
    (dirs : List (Int × Int)) (m : Int × Int)
    (h : m ∈ slideMoves b white row col dirs) : in_bounds m.1 m.2 = true := by
  simp only [slideMoves, List.mem_flatMap] at h
  rcases h with ⟨d, hd, hm⟩
  exact rayMoves_bounds b white d.1 d.2 16 _ _ m hm

lemma slideMoves_agree (b b' : Board) (white : Bool) (row col : Int)
    (dirs : List (Int × Int))
    (hag : ∀ r c : Int, in_bounds r c = true → b' r c = b r c) :
    slideMoves b' white row col dirs = slideMoves b white row col dirs := by
  simp only [slideMoves]
  congr 1
  funext d
  exact rayMoves_agree b b' white d.1 d.2 hag 16 _ _

lemma offsetCand_bounds (b : Board) (white : Bool) (row col : Int)
    (d : Int × Int) (m : Int × Int) (h : m ∈ offsetCand b white row col d) :
    in_bounds m.1 m.2 = true := by
  simp only [offsetCand] at h
  split_ifs at h with h1 h2
  · rcases List.mem_singleton.1 h with rfl
    simpa using h1
  · simp at h
  · simp at h

lemma offsetCand_agree (b b' : Board) (white : Bool) (row col : Int)
    (hag : ∀ r c : Int, in_bounds r c = true → b' r c = b r c)
    (d : Int × Int) :
    offsetCand b' white row col d = offsetCand b white row col d := by
  simp only [offsetCand]
  by_cases h1 : in_bounds (row + d.1) (col + d.2) = true
  · simp only [hag _ _ h1]
  · simp [h1]

lemma kingAdj_agree (b b' : Board) (white : Bool) (row col : Int)
    (hag : ∀ r c : Int, in_bounds r c = true → b' r c = b r c) :
    kingAdj b' white row col = kingAdj b white row col := by
  simp only [kingAdj]
  congr 1
  exact funext (offsetCand_agree b b' white row col hag)

lemma knightMoves_agree (b b' : Board) (white : Bool) (row col : Int)
    (hag : ∀ r c : Int, in_bounds r c = true → b' r c = b r c) :
    knightMoves b' white row col = knightMoves b white row col := by
  simp only [knightMoves]
  congr 1
  exact funext (offsetCand_agree b b' white row col hag)

/-- Every castling candidate sits on column 6 or 2 of the king's
row. -/
lemma castleMoves_shape (s : GameState) (white : Bool) (sr : Int)
    (m : Int × Int) (h : m ∈ castleMoves s white sr) :
    m = (sr, 6) ∨ m = (sr, 2) := by
  simp only [castleMoves] at h
  split_ifs at h <;> simp [List.mem_append, mem_ite_list] at h <;> tauto

lemma castleMoves_agree (s : GameState) (b' : Board) (white : Bool) (sr : Int)
    (hrow : (0:Int) ≤ sr ∧ sr < 8)
    (hag : ∀ r c : Int, in_bounds r c = true → b' r c = s.board r c) :
    castleMoves { s with board := b' } white sr = castleMoves s white sr := by
  have hb : ∀ c2 : Int, 0 ≤ c2 → c2 < 8 → b' sr c2 = s.board sr c2 := by
    intro c2 h1 h2
    apply hag
    simp only [in_bounds, Bool.and_eq_true, decide_eq_true_eq]
    omega
  simp only [castleMoves]
  simp only [hb 7 (by norm_num) (by norm_num), hb 5 (by norm_num) (by norm_num),
    hb 6 (by norm_num) (by norm_num), hb 0 (by norm_num) (by norm_num),
    hb 1 (by norm_num) (by norm_num), hb 2 (by norm_num) (by norm_num),
    hb 3 (by norm_num) (by norm_num)]

set_option maxHeartbeats 1000000 in
/-- C9: for an in-bounds origin (and an in-bounds en-passant target,
as maintained by the turn engine whenever it stores one), every
candidate square produced by move generation is in bounds; and move
generation reads occupants only behind bounds checks, witnessed by the
fact that its output is unchanged under any modification of the board
outside the 8x8 grid. -/
theorem C9_bounds_and_checked_lookups (s : GameState) (row col : Int)
    (hin : in_bounds row col = true)
    (hep : ∀ er ec : Int, s.en_passant_target = some (er, ec) →
      in_bounds er ec = true) :
    (∀ m ∈ get_possible_moves s row col, in_bounds m.1 m.2 = true) ∧
    (∀ b' : Board,
      (∀ r c : Int, in_bounds r c = true → b' r c = s.board r c) →
      get_possible_moves { s with board := b' } row col
        = get_possible_moves s row col) := by
  constructor
  · intro m h
    simp only [get_possible_moves] at h
    split_ifs at h
    all_goals
      first
        | exact absurd h (List.not_mem_nil m)
        | exact pawnMoves_bounds s _ row col hin hep m h
        | exact slideMoves_bounds s.board _ row col rookDirs m h
        | exact slideMoves_bounds s.board _ row col bishopDirs m h
        | exact slideMoves_bounds s.board _ row col queenDirs m h
        | (rcases List.mem_append.1 h with h | h
           · simp only [kingAdj, List.mem_flatMap] at h
             rcases h with ⟨d, hd, hm⟩
             exact offsetCand_bounds s.board _ row col d m hm
           · rcases castleMoves_shape s _ row m h with rfl | rfl <;>
               · simp only [in_bounds, Bool.and_eq_true,
                   decide_eq_true_eq] at hin ⊢
                 omega)
        | (simp only [knightMoves, List.mem_flatMap] at h
           rcases h with ⟨d, hd, hm⟩
           exact offsetCand_bounds s.board _ row col d m hm)
  · intro b' hag
    have hrow : (0:Int) ≤ row ∧ row < 8 := by
      simp only [in_bounds, Bool.and_eq_true, decide_eq_true_eq] at hin
      exact ⟨hin.1.1.1, hin.1.1.2⟩
    have hcode : b' row col = s.board row col := hag _ _ hin
    simp only [get_possible_moves, hcode]
    split_ifs
    all_goals
      first
        | rfl
        | exact pawnMoves_agree s b' _ row col hin hag
        | exact slideMoves_agree s.board b' _ row col rookDirs hag
        | exact slideMoves_agree s.board b' _ row col bishopDirs hag
        | exact slideMoves_agree s.board b' _ row col queenDirs hag
        | rw [kingAdj_agree s.board b' _ row col hag,
            castleMoves_agree s b' _ row hrow hag]
        | exact knightMoves_agree s.board b' _ row col hag

/-- C9 witness: instantiated at the white knight square (7,1) of the
initial position with a board scrambled outside the grid. -/
theorem C9_witness : in_bounds (5 : Int) (0 : Int) = true :=
  (C9_bounds_and_checked_lookups initialState 7 1 (by decide)
    (fun er ec h => by simp [initialState] at h)).1 (5, 0) (by decide)

/-! ## C10 -/

lemma handle_promotion_ne (b : Board) (r c r2 c2 : Int)
    (h : r2 ≠ r ∨ c2 ≠ c) : handle_promotion b r c r2 c2 = b r2 c2 := by
  simp only [handle_promotion]
  split_ifs with h1 h2
  · exact set_piece_other b r c 5 r2 c2 h
  · exact set_piece_other b r c 11 r2 c2 h
  · rfl

lemma applyMoveCore_board_ep (s : GameState) (sr sc er ec : Int)
    (hc : is_castling_move s sr sc er ec s.white_to_move = false)
    (he : is_en_passant s sr sc er ec s.white_to_move = true) :
    (applyMoveCore s sr sc er ec).board
      = handle_en_passant s.board sr sc er ec s.white_to_move := by
  simp only [applyMoveCore, hc, he]
  simp

lemma applyMoveCore_board_simple (s : GameState) (sr sc er ec : Int)
    (hc : is_castling_move s sr sc er ec s.white_to_move = false)
    (he : is_en_passant s sr sc er ec s.white_to_move = false) :
    (applyMoveCore s sr sc er ec).board
      = set_piece (set_piece s.board er ec (s.board sr sc)) sr sc 0 := by
  simp only [applyMoveCore, hc, he]
  simp [kingMovedFlags_board, rookDepartFlags_board]

/-- C10: in every state reachable from the initial position by
accepted turns, whenever the en-passant target is set it denotes an
empty square; in particular the pawn en-passant candidate, generated
without re-checking emptiness, never points at an occupied square in
reachable play. -/
theorem C10_ep_target_square_empty (s : GameState) (h : Reachable s) :
    ∀ er ec : Int, s.en_passant_target = some (er, ec) →
      s.board er ec = 0 := by
  induction h with
  | init =>
    intro er ec he
    simp [initialState] at he
  | step hr hstep ih =>
    rename_i s0 s' sr sc er2 ec2
    intro er ec he
    have hsnd : (applyTurn s0 sr sc er2 ec2).2 = Status.moveApplied := by
      rw [hstep]
    have heq := applyTurn_accepted s0 sr sc er2 ec2 hsnd
    have hs' : s' = postTurn s0 sr sc er2 ec2 := by
      have h2 := heq.symm.trans hstep
      exact (congrArg Prod.fst h2).symm
    subst hs'
    rw [postTurn_ep] at he
    rcases (applyTurn_accepted_iff s0 sr sc er2 ec2).1 hsnd with
      ⟨hres, hsel, hmem⟩
    by_cases hcond : (s0.board sr sc = 1 ∨ s0.board sr sc = 7) ∧
        (er2 - sr).natAbs = 2
    · rw [if_pos hcond] at he
      simp only [Option.some.injEq, Prod.mk.injEq] at he
      obtain ⟨her, hec⟩ := he
      subst her
      rw [← hec]
      obtain ⟨hecsc, hcase, hmid, hdest⟩ :=
        pawn_double_step s0 sr sc er2 ec2 hcond.1 hmem hcond.2
      subst ec2
      rw [postTurn_board]
      rcases hcase with ⟨hcode, hsr, her2⟩ | ⟨hcode, hsr, her2⟩
      · subst hsr
        subst her2
        have hw : s0.white_to_move = true := by
          have hx := (not_or.mp hsel).2
          push_neg at hx
          rw [hcode] at hx
          simpa using hx.symm
        have hcast : is_castling_move s0 6 sc 4 sc s0.white_to_move
            = false := by
          rw [hw]
          simp [is_castling_move]
        have e0 : ((6 : Int) + 4).fdiv 2 = 5 := by decide
        rw [e0] at hmid ⊢
        rw [handle_promotion_ne _ _ _ _ _ (Or.inl (by norm_num))]
        by_cases hep2 : is_en_passant s0 6 sc 4 sc s0.white_to_move = true
        · rw [applyMoveCore_board_ep s0 6 sc 4 sc hcast hep2]
          simp only [handle_en_passant]
          rw [set_piece_other _ _ _ _ _ _ (Or.inl (by norm_num)),
            set_piece_other _ _ _ _ _ _ (Or.inl (by norm_num)),
            set_piece_other _ _ _ _ _ _ (Or.inl (by norm_num))]
          exact hmid
        · rw [applyMoveCore_board_simple s0 6 sc 4 sc hcast
            (by simpa using hep2)]
          rw [set_piece_other _ _ _ _ _ _ (Or.inl (by norm_num)),
            set_piece_other _ _ _ _ _ _ (Or.inl (by norm_num))]
          exact hmid
      · subst hsr
        subst her2
        have hw : s0.white_to_move = false := by
          have hx := (not_or.mp hsel).2
          push_neg at hx
          rw [hcode] at hx
          simpa using hx.symm
        have hcast : is_castling_move s0 1 sc 3 sc s0.white_to_move
            = false := by
          rw [hw]
          simp [is_castling_move]
        have e0 : ((1 : Int) + 3).fdiv 2 = 2 := by decide
        rw [e0] at hmid ⊢
        rw [handle_promotion_ne _ _ _ _ _ (Or.inl (by norm_num))]
        by_cases hep2 : is_en_passant s0 1 sc 3 sc s0.white_to_move = true
        · rw [applyMoveCore_board_ep s0 1 sc 3 sc hcast hep2]
          simp only [handle_en_passant]
          rw [set_piece_other _ _ _ _ _ _ (Or.inl (by norm_num)),
            set_piece_other _ _ _ _ _ _ (Or.inl (by norm_num)),
            set_piece_other _ _ _ _ _ _ (Or.inl (by norm_num))]
          exact hmid
        · rw [applyMoveCore_board_simple s0 1 sc 3 sc hcast
            (by simpa using hep2)]
          rw [set_piece_other _ _ _ _ _ _ (Or.inl (by norm_num)),
            set_piece_other _ _ _ _ _ _ (Or.inl (by norm_num))]
          exact hmid
    · rw [if_neg hcond] at he
      exact absurd he (by simp)

/-- C10 witness: after the accepted double step e2-e4 from the initial
position, the recorded target square (5,4) is empty. -/
theorem C10_witness :
    (postTurn initialState 6 4 4 4).board 5 4 = 0 := by
  have h2 : (applyTurn initialState 6 4 4 4).2 = Status.moveApplied := by
    decide
  have hr : Reachable (postTurn initialState 6 4 4 4) :=
    Reachable.step Reachable.init (applyTurn_accepted initialState 6 4 4 4 h2)
  exact C10_ep_target_square_empty (postTurn initialState 6 4 4 4) hr 5 4
    (by decide)
